import Mathlib

/-!
Shallow embedding of the RIOT RISC-V PLIC driver
(`src/cpu/riscv_common/periph/plic.c`) and proofs about it.

Modelling conventions:
* Memory-mapped registers are a byte-addressed map `mem : Nat → Nat`; every
  register access is 32 bits wide, so reads reduce the stored value mod 2^32
  (`State.rd`) and writes store the value mod 2^32 (`State.wr`), matching
  `volatile uint32_t` access in the C source.  C pointer arithmetic on
  `uint32_t *` advances in 4-byte steps, which the address computations below
  make explicit.
* The platform constants `PLIC_CTRL_ADDR`, `PLIC_NUM_INTERRUPTS` and the
  offset/shift constants come from headers outside the driver source
  (`vendor/plic.h`, board headers); they are modelled as an abstract
  configuration record `Cfg`, exactly as the spec describes them: platform
  supplied base address, interrupt count, byte offsets and per-hart strides.
* The `mhartid` CSR is the `hart` field of the machine state; the driver reads
  it afresh inside every address computation, mirroring `read_csr(mhartid)`.
* The C `assert` macro is modelled as an `Except Fault` result
  (`Fault.assertFail`); an out-of-bounds C array access is undefined behaviour
  and is modelled as `Fault.outOfBounds`; calling a NULL function pointer is
  modelled as `Fault.nullCall`.
* The static callback array `plic_isr_cb_t _ext_isrs[PLIC_NUM_INTERRUPTS]` is a
  list of optional callback tokens (`none` = NULL pointer); its declared length
  `PLIC_NUM_INTERRUPTS` appears as a hypothesis where relevant.
* Callbacks are opaque tokens; invoking one is recorded as an event in the
  dispatch trace rather than executed, since callback bodies are external code.
-/

namespace Plic

/-- Platform configuration: `PLIC_CTRL_ADDR` (base), `PLIC_NUM_INTERRUPTS`, and
the byte offsets / per-hart shift constants from `vendor/plic.h`. -/
structure Cfg where
  base : Nat
  numInterrupts : Nat
  priorityOffset : Nat
  enableOffset : Nat
  enableShift : Nat
  thresholdOffset : Nat
  thresholdShift : Nat
  claimOffset : Nat
  claimShift : Nat

/-- Machine state seen by the driver: memory-mapped registers, the `mhartid`
CSR of the calling hart, and the static callback array `_ext_isrs`. -/
@[ext]
structure State where
  mem : Nat → Nat
  hart : Nat
  _ext_isrs : List (Option Nat)

/-- Reduction of a value to 32 bits, as C `uint32_t` arithmetic does. -/
def w32 (x : Nat) : Nat := x % 2 ^ 32

/-- Volatile 32-bit register read at byte address `a`. -/
def State.rd (s : State) (a : Nat) : Nat := w32 (s.mem a)

/-- Volatile 32-bit register write of `v` at byte address `a`. -/
def State.wr (s : State) (a v : Nat) : State :=
  { s with mem := Function.update s.mem a (w32 v) }

/-- Byte address denoted by the C macro `PLIC_REG(offset)`, i.e.
`PLIC_CTRL_ADDR + offset`. -/
def PLIC_REG_addr (c : Cfg) (offset : Nat) : Nat := c.base + offset

/-- Embedding of `_get_claim_complete_addr`: claim/complete register address of
the running hart, with `mhartid` read from the current state. -/
def _get_claim_complete_addr (c : Cfg) (s : State) : Nat :=
  PLIC_REG_addr c (c.claimOffset + (s.hart <<< c.claimShift))

/-- Embedding of `_get_threshold_addr`: threshold register address of the
running hart. -/
def _get_threshold_addr (c : Cfg) (s : State) : Nat :=
  PLIC_REG_addr c (c.thresholdOffset + (s.hart <<< c.thresholdShift))

/-- Embedding of `_get_irq_reg`: address of the enable word holding the bit of
interrupt `irq` for the running hart.  The C source adds `irq >> 5` to a
`uint32_t *`, i.e. `4 * (irq >>> 5)` bytes. -/
def _get_irq_reg (c : Cfg) (s : State) (irq : Nat) : Nat :=
  PLIC_REG_addr c (c.enableOffset + (s.hart <<< c.enableShift)) + 4 * (irq >>> 5)

/-- All 32 bits set: the `uint32_t` image of `~0`.  Complementing a single-bit
mask `m`, as C `~m` does on 32 bits, is `MASK32 ^^^ m`. -/
def MASK32 : Nat := 2 ^ 32 - 1

/-- Embedding of `plic_enable_interrupt`: `*irq_reg |= 1 << (irq & 0x1f)` with
`irq_reg = _get_irq_reg(irq)`. -/
def plic_enable_interrupt (c : Cfg) (irq : Nat) (s : State) : State :=
  s.wr (_get_irq_reg c s irq)
    (s.rd (_get_irq_reg c s irq) ||| (1 <<< (irq &&& 0x1f)))

/-- Embedding of `plic_disable_interrupt`: `*irq_reg &= ~(1 << (irq & 0x1f))`
with `irq_reg = _get_irq_reg(irq)`. -/
def plic_disable_interrupt (c : Cfg) (irq : Nat) (s : State) : State :=
  s.wr (_get_irq_reg c s irq)
    (s.rd (_get_irq_reg c s irq) &&& (MASK32 ^^^ (1 <<< (irq &&& 0x1f))))

/-- Embedding of `plic_set_threshold`: write `threshold` to the running hart's
threshold register. -/
def plic_set_threshold (c : Cfg) (threshold : Nat) (s : State) : State :=
  s.wr (_get_threshold_addr c s) threshold

/-- Failure modes of the embedded driver code: a failed `assert`, an
out-of-bounds C array access (undefined behaviour), and a call through a NULL
function pointer (undefined behaviour). -/
inductive Fault where
  | assertFail
  | outOfBounds
  | nullCall
deriving DecidableEq

/-- Embedding of `plic_set_priority`: `assert(irq <= PLIC_NUM_INTERRUPTS)`,
`assert(irq != 0)`, then `*(&PLIC_REG(PLIC_PRIORITY_OFFSET) + irq) = priority`
(pointer arithmetic in 4-byte words). -/
def plic_set_priority (c : Cfg) (irq priority : Nat) (s : State) :
    Except Fault State :=
  if irq ≤ c.numInterrupts then
    if irq ≠ 0 then
      .ok (s.wr (PLIC_REG_addr c c.priorityOffset + 4 * irq) priority)
    else .error .assertFail
  else .error .assertFail

/-- Embedding of `plic_complete_interrupt`: write the claimed id back to the
running hart's claim/complete register. -/
def plic_complete_interrupt (c : Cfg) (irq : Nat) (s : State) : State :=
  s.wr (_get_claim_complete_addr c s) irq

/-- Embedding of `plic_claim_interrupt`: read the running hart's claim/complete
register. -/
def plic_claim_interrupt (c : Cfg) (s : State) : Nat :=
  s.rd (_get_claim_complete_addr c s)

/-- Embedding of `plic_set_isr_cb`: `assert(irq <= PLIC_NUM_INTERRUPTS)`,
`assert(irq != 0)`, then the C array store `_ext_isrs[irq] = cb`, which is
defined only for `irq < length _ext_isrs` and undefined behaviour beyond. -/
def plic_set_isr_cb (c : Cfg) (irq : Nat) (cb : Nat) (s : State) :
    Except Fault State :=
  if irq ≤ c.numInterrupts then
    if irq ≠ 0 then
      if irq < s._ext_isrs.length then
        .ok { s with _ext_isrs := s._ext_isrs.set irq (some cb) }
      else .error .outOfBounds
    else .error .assertFail
  else .error .assertFail

/-- Loop body of `plic_init`, counting `fuel` remaining iterations with `i` the
current loop counter: `plic_disable_interrupt(i); plic_set_priority(i, 0);`. -/
def initLoop (c : Cfg) : Nat → Nat → State → Except Fault State
  | _, 0, s => .ok s
  | i, fuel + 1, s =>
    match plic_set_priority c i 0 (plic_disable_interrupt c i s) with
    | .error e => .error e
    | .ok s' => initLoop c (i + 1) fuel s'

/-- Embedding of `plic_init`: `for (i = 1; i <= PLIC_NUM_INTERRUPTS; i++)
{ plic_disable_interrupt(i); plic_set_priority(i, 0); }` then
`plic_set_threshold(0)`. -/
def plic_init (c : Cfg) (s : State) : Except Fault State :=
  match initLoop c 1 c.numInterrupts s with
  | .error e => .error e
  | .ok s' => .ok (plic_set_threshold c 0 s')

/-- Driver-level events of one dispatch: the claim read, the invocation of a
registered callback token with its argument, and the completion write. -/
inductive Ev where
  | claim (id : Nat)
  | callbackCall (cb : Nat) (arg : Nat)
  | complete (id : Nat)
deriving DecidableEq

/-- Embedding of `plic_isr_handler`: claim, then `_ext_isrs[irq](irq)` (an
unchecked array index followed by an unchecked function-pointer call), then
complete.  The returned trace records the three driver actions in program
order; the callback itself is external code and is recorded, not executed. -/
def plic_isr_handler (c : Cfg) (s : State) : Except Fault (State × List Ev) :=
  let irq := plic_claim_interrupt c s
  match s._ext_isrs[irq]? with
  | none => .error .outOfBounds
  | some none => .error .nullCall
  | some (some cb) =>
    .ok (plic_complete_interrupt c irq s,
         [.claim irq, .callbackCall cb irq, .complete irq])

/-- Spec-side address of the priority register of interrupt `irq`:
`base + PRIORITY_OFFSET + 4 * irq` bytes. -/
def prioAddr (c : Cfg) (irq : Nat) : Nat :=
  PLIC_REG_addr c c.priorityOffset + 4 * irq

/-- Spec-side address of enable word `w` of hart `hart`. -/
def enWordAddr (c : Cfg) (hart w : Nat) : Nat :=
  PLIC_REG_addr c (c.enableOffset + (hart <<< c.enableShift)) + 4 * w

/-- Spec-side address of the threshold register of hart `hart`. -/
def thrAddr (c : Cfg) (hart : Nat) : Nat :=
  PLIC_REG_addr c (c.thresholdOffset + (hart <<< c.thresholdShift))

/-- Spec-side per-hart byte stride of the enable block:
`ENABLE_STRIDE = 2 ^ ENABLE_SHIFT_PER_TARGET`. -/
def ENABLE_STRIDE (c : Cfg) : Nat := 2 ^ c.enableShift

/-- Combined effect of one `plic_init` loop iteration on the state (valid when
the assertions pass, i.e. `1 ≤ i ≤ PLIC_NUM_INTERRUPTS`): clear bit `i % 32`
of the hart's enable word `i / 32`, then store 0 to priority register `i`. -/
def initStep (c : Cfg) (i : Nat) (s : State) : State :=
  (plic_disable_interrupt c i s).wr (prioAddr c i) 0

/-! Concrete sample platforms, used to evaluate the code at specific inputs.
The offsets and strides are the standard SiFive PLIC layout the spec's
interface section describes (priority array at the base, enable block at
0x2000 with a 0x80-byte per-hart stride, threshold at 0x200000 and
claim/complete at 0x200004 with a 0x1000-byte per-hart stride). -/

/-- Sample platform with `PLIC_NUM_INTERRUPTS = 4`. -/
def sampleCfg : Cfg :=
  ⟨0x0C000000, 4, 0, 0x2000, 7, 0x200000, 12, 0x200004, 12⟩

/-- Sample platform with `PLIC_NUM_INTERRUPTS = 8`. -/
def sampleCfg8 : Cfg :=
  ⟨0x0C000000, 8, 0, 0x2000, 7, 0x200000, 12, 0x200004, 12⟩

/-- Quiescent state on hart 0: all registers zero, the 4-slot callback table
(matching the declared array size `PLIC_NUM_INTERRUPTS = 4`) all NULL. -/
def sQuiet : State := ⟨fun _ => 0, 0, [none, none, none, none]⟩

/-- State on hart 0 with callback token 99 registered in slot 0 of the 4-slot
table; all registers zero, so a claim read returns 0. -/
def sSlotZero99 : State := ⟨fun _ => 0, 0, [some 99, none, none, none]⟩

/-- State on hart 0 with callback token 77 registered in slot 0 of the 4-slot
table; all registers zero, so a claim read returns 0. -/
def sSlotZero77 : State := ⟨fun _ => 0, 0, [some 77, none, none, none]⟩

/-- State on hart 0 whose claim/complete register (byte address 0x0C200004 on
the sample platform) holds pending id 5, with callback token 42 registered in
slot 5 of an 8-slot table. -/
def sPending5 : State :=
  ⟨fun a => if a = 0x0C200004 then 5 else 0, 0,
   [none, none, none, none, none, some 42, none, none]⟩


/-! Basic facts about 32-bit reads and writes. -/

theorem w32_lt (x : Nat) : w32 x < 2 ^ 32 :=
  Nat.mod_lt _ (by norm_num)

theorem w32_eq_of_lt {x : Nat} (h : x < 2 ^ 32) : w32 x = x :=
  Nat.mod_eq_of_lt h

theorem testBit_w32 (x j : Nat) :
    (w32 x).testBit j = (decide (j < 32) && x.testBit j) :=
  Nat.testBit_mod_two_pow x 32 j

theorem rd_lt (s : State) (a : Nat) : s.rd a < 2 ^ 32 := w32_lt _

theorem wr_mem_same (s : State) (a v : Nat) : (s.wr a v).mem a = w32 v := by
  show Function.update s.mem a (w32 v) a = w32 v
  exact Function.update_same a (w32 v) s.mem

theorem wr_mem_noteq (s : State) (a v b : Nat) (h : b ≠ a) :
    (s.wr a v).mem b = s.mem b := by
  show Function.update s.mem a (w32 v) b = s.mem b
  exact Function.update_noteq h (w32 v) s.mem

theorem wr_eq_self (s : State) (a v : Nat) (h : s.mem a = w32 v) :
    s.wr a v = s := by
  refine State.ext ?_ rfl rfl
  rw [State.wr, ← h]
  exact Function.update_eq_self a s.mem

/-! Bridges between the bit-twiddling expressions of the C source and ordinary
arithmetic. -/

theorem and31_eq_mod (irq : Nat) : irq &&& 0x1f = irq % 32 := by
  have h := Nat.and_pow_two_sub_one_eq_mod irq 5
  norm_num at h
  exact h

theorem one_shiftLeft (k : Nat) : 1 <<< k = 2 ^ k := by
  rw [Nat.shiftLeft_eq, one_mul]

theorem shiftRight5_eq_div (irq : Nat) : irq >>> 5 = irq / 32 := by
  rw [Nat.shiftRight_eq_div_pow]

theorem enable_bit_eq (irq : Nat) : (1 <<< (irq &&& 0x1f)) = 2 ^ (irq % 32) := by
  rw [and31_eq_mod, one_shiftLeft]

theorem irq_reg_eq_enWordAddr (c : Cfg) (s : State) (irq : Nat) :
    _get_irq_reg c s irq = enWordAddr c s.hart (irq / 32) := by
  rw [_get_irq_reg, enWordAddr, shiftRight5_eq_div]

/-- Claim C6.  For every interrupt id and every prior state, `enable(id)`
followed by `disable(id)` leaves every 32-bit register other than the targeted
enable word `id / 32` untouched, and within that word leaves every bit other
than bit `id % 32` at its prior value: the masking is bit-precise. -/
theorem plic_enable_disable_preserves_other_bits (c : Cfg) (irq : Nat) (s : State) :
    (∀ a, a ≠ _get_irq_reg c s irq →
      (plic_disable_interrupt c irq (plic_enable_interrupt c irq s)).mem a = s.mem a) ∧
    (∀ j, j ≠ irq % 32 →
      ((plic_disable_interrupt c irq (plic_enable_interrupt c irq s)).rd
          (_get_irq_reg c s irq)).testBit j
        = (s.rd (_get_irq_reg c s irq)).testBit j) := by
  have hA : _get_irq_reg c (plic_enable_interrupt c irq s) irq = _get_irq_reg c s irq := rfl
  constructor
  · intro a ha
    rw [plic_disable_interrupt, hA, wr_mem_noteq _ _ _ _ ha,
        plic_enable_interrupt, wr_mem_noteq _ _ _ _ ha]
  · intro j hj
    have hd : decide (irq % 32 = j) = false := by
      simp [Ne.symm hj]
    rw [plic_disable_interrupt, hA, State.rd, wr_mem_same, enable_bit_eq]
    rw [show (plic_enable_interrupt c irq s).rd (_get_irq_reg c s irq)
          = w32 (w32 (s.rd (_get_irq_reg c s irq) ||| 2 ^ (irq % 32)))
        from by rw [State.rd, plic_enable_interrupt, wr_mem_same, enable_bit_eq]]
    rw [State.rd]
    by_cases hjlt : j < 32
    · simp only [testBit_w32, Nat.testBit_land, Nat.testBit_lor, Nat.testBit_xor,
        show MASK32 = 2 ^ 32 - 1 from rfl, Nat.testBit_two_pow_sub_one,
        Nat.testBit_two_pow, hd]
      simp [hjlt]
    · simp [testBit_w32, hjlt]

/-- Claim C7.  The enable-word address targeted by `enable(id)`/`disable(id)`
is `base + ENABLE_OFFSET + hart_id * ENABLE_STRIDE + 4 * (id / 32)`, i.e. the
word `id / 32` (4 bytes per 32-bit word) of the enable block of the hart whose
id `_get_irq_reg` reads from the `mhartid` CSR of the state at call time, and
the bit manipulated inside that word is `2 ^ (id % 32)`, i.e. bit `id % 32`. -/
theorem plic_enable_word_address_formula (c : Cfg) (s : State) (irq : Nat) :
    _get_irq_reg c s irq
      = c.base + c.enableOffset + s.hart * ENABLE_STRIDE c + 4 * (irq / 32) ∧
    plic_enable_interrupt c irq s
      = s.wr (_get_irq_reg c s irq)
          (s.rd (_get_irq_reg c s irq) ||| 2 ^ (irq % 32)) ∧
    plic_disable_interrupt c irq s
      = s.wr (_get_irq_reg c s irq)
          (s.rd (_get_irq_reg c s irq) &&& (MASK32 ^^^ 2 ^ (irq % 32))) := by
  refine ⟨?_, ?_, ?_⟩
  · rw [_get_irq_reg, PLIC_REG_addr, ENABLE_STRIDE, Nat.shiftLeft_eq,
      Nat.shiftRight_eq_div_pow]
    norm_num
    ring
  · rw [plic_enable_interrupt, enable_bit_eq]
  · rw [plic_disable_interrupt, enable_bit_eq]

/-- Claim C8.  `enable(id)` and `disable(id)` perform no bounds check against
`PLIC_NUM_INTERRUPTS`: for every unsigned `id` whatsoever (including 0 and
values above the interrupt count) they are total — the embedding gives them no
fault outcome, unlike the `Except`-valued priority/callback operations — and
their entire effect is one read-modify-write of the enable word selected by
`id / 32`: that word becomes the stored old value with bit `id % 32` set
(resp. cleared), every other address is untouched, and the hart id and the
callback table are unchanged. -/
theorem plic_enable_disable_unchecked_rmw (c : Cfg) (s : State) (irq : Nat) :
    ((plic_enable_interrupt c irq s).mem (enWordAddr c s.hart (irq / 32))
        = w32 (s.rd (enWordAddr c s.hart (irq / 32)) ||| 2 ^ (irq % 32)) ∧
      (∀ a, a ≠ enWordAddr c s.hart (irq / 32) →
        (plic_enable_interrupt c irq s).mem a = s.mem a) ∧
      (plic_enable_interrupt c irq s).hart = s.hart ∧
      (plic_enable_interrupt c irq s)._ext_isrs = s._ext_isrs) ∧
    ((plic_disable_interrupt c irq s).mem (enWordAddr c s.hart (irq / 32))
        = w32 (s.rd (enWordAddr c s.hart (irq / 32))
            &&& (MASK32 ^^^ 2 ^ (irq % 32))) ∧
      (∀ a, a ≠ enWordAddr c s.hart (irq / 32) →
        (plic_disable_interrupt c irq s).mem a = s.mem a) ∧
      (plic_disable_interrupt c irq s).hart = s.hart ∧
      (plic_disable_interrupt c irq s)._ext_isrs = s._ext_isrs) := by
  have hA := irq_reg_eq_enWordAddr c s irq
  refine ⟨⟨?_, ?_, rfl, rfl⟩, ⟨?_, ?_, rfl, rfl⟩⟩
  · rw [plic_enable_interrupt, hA, wr_mem_same, enable_bit_eq]
  · intro a ha
    rw [plic_enable_interrupt, hA, wr_mem_noteq _ _ _ _ ha]
  · rw [plic_disable_interrupt, hA, wr_mem_same, enable_bit_eq]
  · intro a ha
    rw [plic_disable_interrupt, hA, wr_mem_noteq _ _ _ _ ha]

/-- Claim C10.  `plic_set_threshold(v)` stores `v` verbatim (for every value
representable in the 32-bit register, with no validation or clamping) into the
calling hart's threshold register, and changes nothing else: no other memory
address, not the hart id, and not the callback table. -/
theorem plic_set_threshold_writes_verbatim (c : Cfg) (s : State) (v : Nat)
    (hv : v < 2 ^ 32) :
    (plic_set_threshold c v s).rd (thrAddr c s.hart) = v ∧
    (∀ a, a ≠ thrAddr c s.hart → (plic_set_threshold c v s).mem a = s.mem a) ∧
    (plic_set_threshold c v s).hart = s.hart ∧
    (plic_set_threshold c v s)._ext_isrs = s._ext_isrs := by
  have hA : _get_threshold_addr c s = thrAddr c s.hart := rfl
  refine ⟨?_, ?_, rfl, rfl⟩
  · rw [plic_set_threshold, State.rd, hA, wr_mem_same, w32, w32]
    omega
  · intro a ha
    rw [plic_set_threshold, hA, wr_mem_noteq _ _ _ _ ha]

/-- Claim C1, evaluated at the failing input.  The spec says the callback
table has `N + 1` slots so that `set_callback(id, handler)` is an in-bounds
write for every `1 ≤ id ≤ N`; the C source declares
`plic_isr_cb_t _ext_isrs[PLIC_NUM_INTERRUPTS]`, i.e. only `N` slots.  On the
sample platform with `N = 4` and the table at its declared length 4, the call
`set_callback(4, 7)` passes both assertions (`4 ≤ N`, `4 ≠ 0`) yet the array
store `_ext_isrs[4]` is one past the end of the table: undefined behaviour,
not an in-bounds write. -/
theorem plic_set_isr_cb_top_id_out_of_bounds :
    sQuiet._ext_isrs.length = sampleCfg.numInterrupts ∧
    4 ≤ sampleCfg.numInterrupts ∧ (4 : Nat) ≠ 0 ∧
    plic_set_isr_cb sampleCfg 4 7 sQuiet = .error .outOfBounds :=
  ⟨rfl, by norm_num [sampleCfg], by norm_num, rfl⟩

/-- Claim C5, evaluated at the boundary.  With `N = 4` and the callback table
at its declared length `N`: ids outside `[1, N]` are indeed rejected by the
fatal assertion-style checks in both `set_priority` and `set_callback`
(evaluated at ids 0 and 5), and `set_priority` does not fault anywhere in
`[1, N]` (evaluated at the boundary id 4) — but the claim's second half fails:
`set_callback(4, 7)` faults, because the assertions accept `id = N` while the
table only has `N` slots, making the store out of bounds. -/
theorem plic_id_checks_boundary_eval :
    plic_set_priority sampleCfg 0 3 sQuiet = .error .assertFail ∧
    plic_set_priority sampleCfg 5 3 sQuiet = .error .assertFail ∧
    plic_set_isr_cb sampleCfg 0 7 sQuiet = .error .assertFail ∧
    plic_set_isr_cb sampleCfg 5 7 sQuiet = .error .assertFail ∧
    plic_set_priority sampleCfg 4 3 sQuiet
      = .ok (sQuiet.wr (prioAddr sampleCfg 4) 3) ∧
    plic_set_isr_cb sampleCfg 4 7 sQuiet = .error .outOfBounds :=
  ⟨rfl, rfl, rfl, rfl, rfl, rfl⟩

/-- Claim C2, refuted at a concrete input.  On the sample platform, in a state
where the claim read returns the sentinel id 0 and callback token 99 sits in
slot 0 of the table, the dispatch entry point does invoke a callback for id 0:
its trace is claim 0, then the invocation of callback 99 with argument 0, then
complete 0 — it does not handle the sentinel gracefully. -/
theorem plic_isr_handler_dispatches_id_zero :
    plic_claim_interrupt sampleCfg sSlotZero99 = 0 ∧
    (plic_isr_handler sampleCfg sSlotZero99).map Prod.snd
      = .ok [.claim 0, .callbackCall 99 0, .complete 0] :=
  ⟨rfl, rfl⟩

/-- Claim C2 as amended.  When the claim read returns the sentinel id 0, the
dispatch entry point does not special-case it: it indexes slot 0 of the
callback table and, if a callback is registered there, invokes it with
argument 0 and then completes 0; if slot 0 holds NULL it calls a NULL function
pointer (the driver comment says to "crash hard"). -/
theorem plic_isr_handler_zero_claim_behavior (c : Cfg) (s : State)
    (h0 : plic_claim_interrupt c s = 0) :
    (s._ext_isrs[0]? = some none → plic_isr_handler c s = .error .nullCall) ∧
    (∀ cb, s._ext_isrs[0]? = some (some cb) →
      plic_isr_handler c s
        = .ok (plic_complete_interrupt c 0 s,
               [.claim 0, .callbackCall cb 0, .complete 0])) := by
  have hh : plic_isr_handler c s
      = match s._ext_isrs[plic_claim_interrupt c s]? with
        | none => .error .outOfBounds
        | some none => .error .nullCall
        | some (some cb) =>
          .ok (plic_complete_interrupt c (plic_claim_interrupt c s) s,
               [.claim (plic_claim_interrupt c s),
                .callbackCall cb (plic_claim_interrupt c s),
                .complete (plic_claim_interrupt c s)]) := rfl
  rw [hh, h0]
  constructor
  · intro h
    rw [h]
  · intro cb h
    rw [h]

/-- Witness for the amended claim C2: on the sample platform, with a zero
claim register and callback token 77 in slot 0, dispatch invokes callback 77
with argument 0. -/
theorem plic_isr_handler_zero_claim_behavior_witness :
    plic_isr_handler sampleCfg sSlotZero77
      = .ok (plic_complete_interrupt sampleCfg 0 sSlotZero77,
             [.claim 0, .callbackCall 77 0, .complete 0]) :=
  (plic_isr_handler_zero_claim_behavior sampleCfg sSlotZero77 rfl).2 77 rfl

/-- Claim C3.  Whenever the callback table holds a registered callback at the
claimed id, one invocation of the dispatch entry performs exactly the trace:
one claim read, then one invocation of that callback with the claimed id as
argument, then one completion write of that same id — in that order, with no
other claim in between — and the only register effect is the completion write
to the calling hart's claim/complete register. -/
theorem plic_isr_handler_claim_dispatch_complete (c : Cfg) (s : State) (cb : Nat)
    (h : s._ext_isrs[plic_claim_interrupt c s]? = some (some cb)) :
    plic_isr_handler c s
      = .ok (plic_complete_interrupt c (plic_claim_interrupt c s) s,
             [.claim (plic_claim_interrupt c s),
              .callbackCall cb (plic_claim_interrupt c s),
              .complete (plic_claim_interrupt c s)]) := by
  have hh : plic_isr_handler c s
      = match s._ext_isrs[plic_claim_interrupt c s]? with
        | none => .error .outOfBounds
        | some none => .error .nullCall
        | some (some cb) =>
          .ok (plic_complete_interrupt c (plic_claim_interrupt c s) s,
               [.claim (plic_claim_interrupt c s),
                .callbackCall cb (plic_claim_interrupt c s),
                .complete (plic_claim_interrupt c s)]) := rfl
  rw [hh, h]

/-! Characterization of `plic_init`.  One loop iteration of `plic_init` is
`plic_disable_interrupt(i)` followed by `plic_set_priority(i, 0)`; since the
loop counter satisfies `1 ≤ i ≤ PLIC_NUM_INTERRUPTS`, the assertions inside
`plic_set_priority` always pass and the iteration's combined effect is the
state `initStep` below.  Every register write the whole of `plic_init`
performs either stores 0 or clears one bit, so register bits only ever go from
set to clear during `plic_init`; that monotonicity drives the proofs. -/

theorem initStep_run (c : Cfg) (i : Nat) (s : State)
    (h1 : i ≤ c.numInterrupts) (h2 : i ≠ 0) :
    plic_set_priority c i 0 (plic_disable_interrupt c i s)
      = .ok (initStep c i s) := by
  rw [plic_set_priority, if_pos h1, if_pos h2]
  rfl

theorem initStep_frame (c : Cfg) (i : Nat) (s : State) (a : Nat)
    (h1 : a ≠ prioAddr c i) (h2 : a ≠ enWordAddr c s.hart (i / 32)) :
    (initStep c i s).mem a = s.mem a := by
  rw [initStep, wr_mem_noteq _ _ _ _ h1, plic_disable_interrupt,
    irq_reg_eq_enWordAddr, wr_mem_noteq _ _ _ _ h2]

theorem initStep_mono (c : Cfg) (i : Nat) (s : State) :
    ∀ a k, ((initStep c i s).mem a).testBit k = true →
      (s.mem a).testBit k = true := by
  intro a k h
  by_cases hp : a = prioAddr c i
  · subst hp
    rw [initStep, wr_mem_same] at h
    simp [w32] at h
  · rw [initStep, wr_mem_noteq _ _ _ _ hp, plic_disable_interrupt,
      irq_reg_eq_enWordAddr] at h
    by_cases he : a = enWordAddr c s.hart (i / 32)
    · subst he
      rw [wr_mem_same, testBit_w32, Nat.testBit_land] at h
      have h' := (Bool.and_eq_true_iff.mp h).2
      have h'' := (Bool.and_eq_true_iff.mp h').1
      rw [State.rd, testBit_w32] at h''
      exact (Bool.and_eq_true_iff.mp h'').2
    · rw [wr_mem_noteq _ _ _ _ he] at h
      exact h

theorem initStep_lt (c : Cfg) (i : Nat) (s : State) :
    ∀ a, s.mem a < 2 ^ 32 → (initStep c i s).mem a < 2 ^ 32 := by
  intro a h
  by_cases hp : a = prioAddr c i
  · subst hp
    rw [initStep, wr_mem_same]
    exact w32_lt _
  · rw [initStep, wr_mem_noteq _ _ _ _ hp, plic_disable_interrupt,
      irq_reg_eq_enWordAddr]
    by_cases he : a = enWordAddr c s.hart (i / 32)
    · subst he
      rw [wr_mem_same]
      exact w32_lt _
    · rw [wr_mem_noteq _ _ _ _ he]
      exact h

theorem initStep_effect (c : Cfg) (i : Nat) (s : State) :
    ((initStep c i s).mem (enWordAddr c s.hart (i / 32))).testBit (i % 32) = false ∧
    (initStep c i s).mem (enWordAddr c s.hart (i / 32)) < 2 ^ 32 ∧
    (initStep c i s).mem (prioAddr c i) = 0 := by
  have hm : i % 32 < 32 := Nat.mod_lt i (by norm_num)
  refine ⟨?_, ?_, ?_⟩
  · by_cases hpe : prioAddr c i = enWordAddr c s.hart (i / 32)
    · rw [initStep, ← hpe, wr_mem_same]
      simp [w32]
    · rw [initStep, wr_mem_noteq _ _ _ _ (Ne.symm hpe), plic_disable_interrupt,
        irq_reg_eq_enWordAddr, wr_mem_same, enable_bit_eq, testBit_w32,
        Nat.testBit_land, Nat.testBit_xor, show MASK32 = 2 ^ 32 - 1 from rfl,
        Nat.testBit_two_pow_sub_one, Nat.testBit_two_pow]
      simp [hm]
  · by_cases hpe : prioAddr c i = enWordAddr c s.hart (i / 32)
    · rw [initStep, ← hpe, wr_mem_same]
      exact w32_lt _
    · rw [initStep, wr_mem_noteq _ _ _ _ (Ne.symm hpe), plic_disable_interrupt,
        irq_reg_eq_enWordAddr, wr_mem_same]
      exact w32_lt _
  · rw [initStep, wr_mem_same]
    simp [w32]

/-- Main invariant of the `plic_init` loop, by induction on the remaining
iteration count `fuel` with loop counter `i` (so the loop processes exactly
the ids `i ≤ id < i + fuel`, and `i + fuel = N + 1` matches the C loop
`for (i = 1; i <= N; i++)`).  The loop succeeds (no assertion fires), leaves
the hart id and callback table alone, touches only the processed priority
registers and enable words, never sets a register bit that was clear, never
produces a register value outside 32 bits from one inside, and leaves every
processed id's enable bit clear, its enable word within 32 bits, and its
priority register zero. -/
theorem initLoop_spec (c : Cfg) (hart : Nat) :
    ∀ fuel i s, s.hart = hart → 1 ≤ i → i + fuel = c.numInterrupts + 1 →
    ∃ s', initLoop c i fuel s = .ok s' ∧
      s'.hart = hart ∧
      s'._ext_isrs = s._ext_isrs ∧
      (∀ a, (∀ id, i ≤ id → id < i + fuel →
          a ≠ prioAddr c id ∧ a ≠ enWordAddr c hart (id / 32)) →
        s'.mem a = s.mem a) ∧
      (∀ a k, (s'.mem a).testBit k = true → (s.mem a).testBit k = true) ∧
      (∀ a, s.mem a < 2 ^ 32 → s'.mem a < 2 ^ 32) ∧
      (∀ id, i ≤ id → id < i + fuel →
        (s'.mem (enWordAddr c hart (id / 32))).testBit (id % 32) = false ∧
        s'.mem (enWordAddr c hart (id / 32)) < 2 ^ 32 ∧
        s'.mem (prioAddr c id) = 0) := by
  intro fuel
  induction fuel with
  | zero =>
    intro i s hs hi hN
    exact ⟨s, rfl, hs, rfl, fun a _ => rfl, fun a k h => h, fun a h => h,
      fun id h1 h2 => (by omega : False).elim⟩
  | succ fuel ih =>
    intro i s hs hi hN
    have hiN : i ≤ c.numInterrupts := by omega
    have hi0 : i ≠ 0 := by omega
    have hsh : (initStep c i s).hart = hart := hs
    obtain ⟨s', hrun, hhart, hisrs, hframe, hmono, hlt, hdone⟩ :=
      ih (i + 1) (initStep c i s) hsh (by omega) (by omega)
    have hunf : initLoop c i (fuel + 1) s = initLoop c (i + 1) fuel (initStep c i s) := by
      show (match plic_set_priority c i 0 (plic_disable_interrupt c i s) with
        | Except.error e => (Except.error e : Except Fault State)
        | Except.ok t => initLoop c (i + 1) fuel t) = _
      rw [initStep_run c i s hiN hi0]
    have hse : enWordAddr c s.hart (i / 32) = enWordAddr c hart (i / 32) := by
      rw [hs]
    have heff := initStep_effect c i s
    rw [hse] at heff
    refine ⟨s', by rw [hunf, hrun], hhart, hisrs, ?_, ?_, ?_, ?_⟩
    · intro a ha
      have h1 := (ha i (le_refl i) (by omega)).1
      have h2 := (ha i (le_refl i) (by omega)).2
      rw [hframe a (fun id hid1 hid2 => ha id (by omega) (by omega)),
        initStep_frame c i s a h1 (by rw [hse]; exact h2)]
    · intro a k h
      exact initStep_mono c i s a k (hmono a k h)
    · intro a h
      exact hlt a (initStep_lt c i s a h)
    · intro id hid1 hid2
      by_cases hcase : i + 1 ≤ id
      · exact hdone id hcase (by omega)
      · have hide : id = i := by omega
        subst hide
        refine ⟨?_, hlt _ heff.2.1, ?_⟩
        · cases hb : (s'.mem (enWordAddr c hart (id / 32))).testBit (id % 32) with
          | false => rfl
          | true =>
            have := hmono _ _ hb
            rw [heff.1] at this
            exact absurd this Bool.false_ne_true
        · apply Nat.eq_of_testBit_eq
          intro j
          rw [Nat.zero_testBit]
          cases hb : (s'.mem (prioAddr c id)).testBit j with
          | false => rfl
          | true =>
            have := hmono _ _ hb
            rw [heff.2.2, Nat.zero_testBit] at this
            exact absurd this Bool.false_ne_true

/-- Witness for claim C3, mirroring the spec's dispatch-correctness scenario:
callback 42 registered for id 5, id 5 pending and claimed, results in exactly
one invocation of 42 with argument 5 followed by one complete(5). -/
theorem plic_isr_handler_claim_dispatch_complete_witness :
    plic_isr_handler sampleCfg8 sPending5
      = .ok (plic_complete_interrupt sampleCfg8 5 sPending5,
             [.claim 5, .callbackCall 42 5, .complete 5]) :=
  plic_isr_handler_claim_dispatch_complete sampleCfg8 sPending5 42 rfl

theorem and_mask_eq_self {m k : Nat} (hm : m < 2 ^ 32) (hk : k < 32)
    (hbit : m.testBit k = false) : m &&& (MASK32 ^^^ 2 ^ k) = m := by
  apply Nat.eq_of_testBit_eq
  intro j
  rw [Nat.testBit_land, Nat.testBit_xor, show MASK32 = 2 ^ 32 - 1 from rfl,
    Nat.testBit_two_pow_sub_one, Nat.testBit_two_pow]
  by_cases hj : j = k
  · subst hj
    simp [hbit, hk]
  · by_cases hjlt : j < 32
    · simp [Ne.symm hj, hjlt]
    · have hmj : m.testBit j = false :=
        Nat.testBit_eq_false_of_lt
          (lt_of_lt_of_le hm (Nat.pow_le_pow_right (by norm_num) (by omega)))
      simp [hmj, Ne.symm hj, hjlt]

theorem disable_noop (c : Cfg) (i : Nat) (s : State)
    (hlt : s.mem (enWordAddr c s.hart (i / 32)) < 2 ^ 32)
    (hbit : (s.mem (enWordAddr c s.hart (i / 32))).testBit (i % 32) = false) :
    plic_disable_interrupt c i s = s := by
  apply wr_eq_self
  rw [irq_reg_eq_enWordAddr, enable_bit_eq, State.rd, w32_eq_of_lt hlt,
    and_mask_eq_self hlt (Nat.mod_lt i (by norm_num)) hbit, w32_eq_of_lt hlt]

theorem prio_noop (c : Cfg) (i : Nat) (s : State) (h1 : i ≤ c.numInterrupts)
    (h2 : i ≠ 0) (hz : s.mem (prioAddr c i) = 0) :
    plic_set_priority c i 0 s = .ok s := by
  rw [plic_set_priority, if_pos h1, if_pos h2]
  congr 1
  apply wr_eq_self
  rw [show PLIC_REG_addr c c.priorityOffset + 4 * i = prioAddr c i from rfl, hz]
  simp [w32]

theorem threshold_noop (c : Cfg) (s : State)
    (hz : s.mem (thrAddr c s.hart) = 0) :
    plic_set_threshold c 0 s = s := by
  apply wr_eq_self
  rw [show _get_threshold_addr c s = thrAddr c s.hart from rfl, hz]
  simp [w32]

theorem initLoop_fixed (c : Cfg) :
    ∀ fuel i (s : State),
      (∀ id, i ≤ id → id < i + fuel →
        plic_set_priority c id 0 (plic_disable_interrupt c id s) = .ok s) →
      initLoop c i fuel s = .ok s := by
  intro fuel
  induction fuel with
  | zero =>
    intro i s _
    rfl
  | succ fuel ih =>
    intro i s h
    show (match plic_set_priority c i 0 (plic_disable_interrupt c i s) with
      | Except.error e => (Except.error e : Except Fault State)
      | Except.ok t => initLoop c (i + 1) fuel t) = Except.ok s
    rw [h i (le_refl i) (by omega)]
    exact ih (i + 1) s (fun id hd1 hd2 => h id (by omega) (by omega))

/-- Full characterization of a successful `plic_init` run: it always succeeds,
leaves the hart id and callback table unchanged, leaves every id in
`[1, N]` with its enable bit clear and priority register 0, stores values
representable in 32 bits in the touched enable words, and leaves the calling
hart's threshold register 0. -/
theorem plic_init_spec (c : Cfg) (s : State) :
    ∃ s', plic_init c s = .ok s' ∧
      s'.hart = s.hart ∧
      s'._ext_isrs = s._ext_isrs ∧
      (∀ id, 1 ≤ id → id ≤ c.numInterrupts →
        (s'.mem (enWordAddr c s.hart (id / 32))).testBit (id % 32) = false ∧
        s'.mem (enWordAddr c s.hart (id / 32)) < 2 ^ 32 ∧
        s'.mem (prioAddr c id) = 0) ∧
      s'.mem (thrAddr c s.hart) = 0 := by
  obtain ⟨t, hA, hB, hC, hD, hE, hF, hG⟩ :=
    initLoop_spec c s.hart c.numInterrupts 1 s rfl (le_refl 1) (by omega)
  have hw : plic_set_threshold c 0 t = t.wr (thrAddr c s.hart) 0 := by
    rw [plic_set_threshold,
      show _get_threshold_addr c t = thrAddr c t.hart from rfl, hB]
  refine ⟨plic_set_threshold c 0 t, ?_, hB, hC, ?_, ?_⟩
  · show (match initLoop c 1 c.numInterrupts s with
      | Except.error e => (Except.error e : Except Fault State)
      | Except.ok u => Except.ok (plic_set_threshold c 0 u))
        = Except.ok (plic_set_threshold c 0 t)
    rw [hA]
  · intro id h1 h2
    obtain ⟨hbit, hlt, hz⟩ := hG id h1 (by omega)
    refine ⟨?_, ?_, ?_⟩
    · by_cases hte : enWordAddr c s.hart (id / 32) = thrAddr c s.hart
      · rw [hw, hte, wr_mem_same]
        simp [w32]
      · rw [hw, wr_mem_noteq _ _ _ _ hte]
        exact hbit
    · by_cases hte : enWordAddr c s.hart (id / 32) = thrAddr c s.hart
      · rw [hw, hte, wr_mem_same]
        exact w32_lt _
      · rw [hw, wr_mem_noteq _ _ _ _ hte]
        exact hlt
    · by_cases htp : prioAddr c id = thrAddr c s.hart
      · rw [hw, htp, wr_mem_same]
        simp [w32]
      · rw [hw, wr_mem_noteq _ _ _ _ htp]
        exact hz
  · rw [hw, wr_mem_same]
    simp [w32]

/-- Claim C4.  `plic_init` always returns successfully, and afterwards, for
every interrupt id in `[1, N]`, the enable bit of that id (bit `id % 32` of
the calling hart's enable word `id / 32`) reads as clear and its priority
register reads 0, and the calling hart's threshold register reads 0. -/
theorem plic_init_establishes_quiescent (c : Cfg) (s : State) :
    ∃ s', plic_init c s = .ok s' ∧
      (∀ id, 1 ≤ id → id ≤ c.numInterrupts →
        (s'.rd (enWordAddr c s.hart (id / 32))).testBit (id % 32) = false ∧
        s'.rd (prioAddr c id) = 0) ∧
      s'.rd (thrAddr c s.hart) = 0 := by
  obtain ⟨s', h1, _, _, h4, h5⟩ := plic_init_spec c s
  refine ⟨s', h1, ?_, ?_⟩
  · intro id ha hb
    obtain ⟨hbit, hlt, hz⟩ := h4 id ha hb
    constructor
    · rw [State.rd, w32_eq_of_lt hlt, hbit]
    · rw [State.rd, hz]
      simp [w32]
  · rw [State.rd, h5]
    simp [w32]

/-- Witness for claim C4 on the sample platform, at interrupt id 3: after
`plic_init`, id 3 is disabled, has priority 0, and hart 0's threshold is 0. -/
theorem plic_init_establishes_quiescent_witness :
    ∃ s', plic_init sampleCfg sQuiet = .ok s' ∧
      ((s'.rd (enWordAddr sampleCfg 0 (3 / 32))).testBit (3 % 32) = false ∧
       s'.rd (prioAddr sampleCfg 3) = 0) ∧
      s'.rd (thrAddr sampleCfg 0) = 0 := by
  obtain ⟨s', h1, h2, h3⟩ := plic_init_establishes_quiescent sampleCfg sQuiet
  exact ⟨s', h1, h2 3 (by norm_num) (by norm_num [sampleCfg]), h3⟩

/-- Claim C9.  `plic_init` is idempotent on the register state: for every
platform configuration and every starting machine state, running it twice in
succession produces exactly the state produced by running it once (the second
run rewrites every register it touches with the value already there). -/
theorem plic_init_idempotent (c : Cfg) (s : State) :
    (plic_init c s).bind (plic_init c) = plic_init c s := by
  obtain ⟨s', hinit, hhart, _, hq, hthr⟩ := plic_init_spec c s
  rw [hinit]
  show plic_init c s' = Except.ok s'
  have hloop : initLoop c 1 c.numInterrupts s' = .ok s' := by
    apply initLoop_fixed
    intro id hd1 hd2
    have hid := hq id hd1 (by omega)
    have hdis : plic_disable_interrupt c id s' = s' :=
      disable_noop c id s' (by rw [hhart]; exact hid.2.1)
        (by rw [hhart]; exact hid.1)
    rw [hdis]
    exact prio_noop c id s' (by omega) (by omega) hid.2.2
  show (match initLoop c 1 c.numInterrupts s' with
    | Except.error e => (Except.error e : Except Fault State)
    | Except.ok t => Except.ok (plic_set_threshold c 0 t)) = Except.ok s'
  rw [hloop]
  show Except.ok (plic_set_threshold c 0 s') = Except.ok s'
  rw [threshold_noop c s' (by rw [hhart]; exact hthr)]

/-- Witness for claim C6 on the sample platform: after enable(5) then
disable(5) on hart 0, byte address 0 (outside the targeted enable word) is
untouched and bit 7 of the targeted enable word keeps its prior value. -/
theorem plic_enable_disable_preserves_other_bits_witness :
    (plic_disable_interrupt sampleCfg 5 (plic_enable_interrupt sampleCfg 5 sQuiet)).mem 0
        = sQuiet.mem 0 ∧
    ((plic_disable_interrupt sampleCfg 5 (plic_enable_interrupt sampleCfg 5 sQuiet)).rd
        (_get_irq_reg sampleCfg sQuiet 5)).testBit 7
      = (sQuiet.rd (_get_irq_reg sampleCfg sQuiet 5)).testBit 7 :=
  ⟨(plic_enable_disable_preserves_other_bits sampleCfg 5 sQuiet).1 0 (by decide),
   (plic_enable_disable_preserves_other_bits sampleCfg 5 sQuiet).2 7 (by decide)⟩

/-- Witness for claim C8 on the sample platform, at the reserved id 0 (which
enable/disable accept without any check): enable(0) read-modify-writes enable
word 0 of hart 0, and disable(0) leaves unrelated byte address 7 untouched. -/
theorem plic_enable_disable_unchecked_rmw_witness :
    (plic_enable_interrupt sampleCfg 0 sQuiet).mem (enWordAddr sampleCfg 0 (0 / 32))
        = w32 (sQuiet.rd (enWordAddr sampleCfg 0 (0 / 32)) ||| 2 ^ (0 % 32)) ∧
    (plic_disable_interrupt sampleCfg 0 sQuiet).mem 7 = sQuiet.mem 7 :=
  ⟨(plic_enable_disable_unchecked_rmw sampleCfg sQuiet 0).1.1,
   (plic_enable_disable_unchecked_rmw sampleCfg sQuiet 0).2.2.1 7 (by decide)⟩

/-- Witness for claim C10 on the sample platform: set_threshold(7) makes hart
0's threshold register read back exactly 7. -/
theorem plic_set_threshold_writes_verbatim_witness :
    (plic_set_threshold sampleCfg 7 sQuiet).rd (thrAddr sampleCfg 0) = 7 :=
  (plic_set_threshold_writes_verbatim sampleCfg sQuiet 7 (by norm_num)).1

end Plic
